import Mathlib

/-!
Shallow embedding of the Datapad note manager core
(`internal/notes/model.go` and the `notes` manager file, here called
`manager.go`), together with proofs of the specification's claims about it.

Modelling conventions:
* `time.Time` values are modelled as `Nat` instants; every operation that
  calls `time.Now()` in Go takes the current instant `now : Nat` as an
  explicit parameter.
* Generated identifiers (`generateID()`) are nondeterministic (they depend
  on the wall clock), so operations that generate one take it as an explicit
  parameter.
* The file system, as seen by the manager, is a record `FS` holding the
  decoded contents of `notes.json` (`none` when the file does not exist) and
  a flag saying whether a write would fail.  JSON encoding/decoding of the
  note list is modelled as the identity on the decoded list (Go's
  `json.MarshalIndent`/`json.Unmarshal` round-trip faithfully on these
  record types).
* Fallibility of the individual OS calls made by `ImportImage`
  (`os.Open`, `os.Create`, `os.ReadFile`, `destination.Write`) is modelled
  by the record of flags `ImportEnv`.
* Go methods mutate notes through pointers; the manager's slice holds
  `*Note` and `GetNoteByID` returns the first note whose `ID` matches, so
  pointer-directed mutation is modelled as updating the first note with the
  given id in the list.
* `strings.ToLower` is modelled character-wise by `Char.toLower` (the ASCII
  fragment of Go's Unicode lowering), and `strings.Contains` as list-infix
  on the character lists.
-/

/-- Go structure `Image` from `model.go`: fields ID, Path, Caption, AltText, Position. -/
structure Image where
  ID : String
  Path : String
  Caption : String
  AltText : String
  Position : Int
deriving DecidableEq

/-- Go structure `Note` from `model.go`: fields ID, Title, Content, Images, CreatedAt,
UpdatedAt, Tags.  `nil` and empty slices are both modelled as `[]`. -/
structure Note where
  ID : String
  Title : String
  Content : String
  Images : List Image
  CreatedAt : Nat
  UpdatedAt : Nat
  Tags : List String
deriving DecidableEq

/-- Function `NewNote` from `model.go`: fresh id (passed in, since `generateID()` is
clock-driven), given title, zero-value content, empty images and tags,
`CreatedAt = UpdatedAt = now`. -/
def NewNote (title : String) (now : Nat) (genId : String) : Note :=
  { ID := genId, Title := title, Content := "", Images := [],
    CreatedAt := now, UpdatedAt := now, Tags := [] }

/-- Method `Note.AddImage` from `model.go`: appends an `Image` whose only populated
fields are Path, Caption and AltText (ID stays the zero value `""` and
Position stays `0`), then sets `UpdatedAt` to now.  The `nil`-slice check in
the Go code is a no-op in the list model. -/
def Note.AddImage (n : Note) (path caption altText : String) (now : Nat) : Note :=
  { n with
      Images := n.Images ++
        [{ ID := "", Path := path, Caption := caption, AltText := altText,
           Position := 0 }],
      UpdatedAt := now }

/-- Method `Note.AddTag` from `model.go`: the loop returns early when some existing
tag equals `tag` (exact string equality); otherwise the tag is appended and
`UpdatedAt` is set to now. -/
def Note.AddTag (n : Note) (tag : String) (now : Nat) : Note :=
  if tag ∈ n.Tags then n
  else { n with Tags := n.Tags ++ [tag], UpdatedAt := now }

/-- The in-place splice `append(tags[:i], tags[i+1:]...)` performed by
`Note.RemoveTag` at the first index holding `tag`: `none` when no element
matches. -/
def removeFirstTag : List String → String → Option (List String)
  | [], _ => none
  | t :: rest, tag =>
    if t = tag then some rest
    else (removeFirstTag rest tag).map (fun l => t :: l)

/-- Method `Note.RemoveTag` from `model.go`: removes the first occurrence of `tag`
and sets `UpdatedAt` to now; a no-op when the tag is absent. -/
def Note.RemoveTag (n : Note) (tag : String) (now : Nat) : Note :=
  match removeFirstTag n.Tags tag with
  | some ts => { n with Tags := ts, UpdatedAt := now }
  | none => n

/-- Go structure `NotesManager` from `manager.go`.  `StoragePath`/`ImageDir` are constant
strings irrelevant to the claims; the backing file they point at is modelled
by `FS`. -/
structure NotesManager where
  Notes : List Note
deriving DecidableEq

/-- The file system as the manager sees it: the decoded contents of
`notes.json` (`none` when absent) and whether the next write fails. -/
structure FS where
  file : Option (List Note)
  writeFails : Bool
deriving DecidableEq

/-- The (non-strict) order established by `SaveNotes`'s
`sort.Slice(..., m.Notes[i].UpdatedAt.After(m.Notes[j].UpdatedAt))`:
`UpdatedAt` descending. -/
def noteLE (a b : Note) : Prop := b.UpdatedAt ≤ a.UpdatedAt

instance : DecidableRel noteLE := fun a b => Nat.decLe b.UpdatedAt a.UpdatedAt

instance : IsTotal Note noteLE := ⟨fun a b => Nat.le_total b.UpdatedAt a.UpdatedAt⟩

instance : IsTrans Note noteLE := ⟨fun _ _ _ h1 h2 => Nat.le_trans h2 h1⟩

/-- The sort performed by `SaveNotes`: notes by `UpdatedAt` descending.
`sort.Slice` is an unstable comparison sort, so the order of equal keys is
unspecified in Go; any comparison sort is a faithful model and we use
insertion sort. -/
def sortNotes (notes : List Note) : List Note :=
  notes.insertionSort noteLE

/-- Method `NotesManager.SaveNotes` from `manager.go`: sorts the in-memory
collection in place (this happens before and regardless of the write), then
marshals it and writes `notes.json`, returning the error from a failed
write.  Serialization of these record types cannot fail, so the marshal step
is total. -/
def NotesManager.SaveNotes (m : NotesManager) (fs : FS) :
    NotesManager × FS × Option String :=
  let sorted := sortNotes m.Notes
  let m1 : NotesManager := { Notes := sorted }
  if fs.writeFails then
    (m1, fs, some "error writing notes file")
  else
    (m1, { fs with file := some sorted }, none)

/-- Method `NotesManager.LoadNotes` from `manager.go`: reads `notes.json` (an error
when it does not exist), decodes it and replaces the in-memory collection
verbatim. -/
def NotesManager.LoadNotes (m : NotesManager) (fs : FS) :
    NotesManager × Option String :=
  match fs.file with
  | none => (m, some "file does not exist")
  | some notes => ({ Notes := notes }, none)

/-- The loop of `GetNoteByID`: return the first note whose `ID` equals `id`,
else the "note not found" error. -/
def findNote : List Note → String → Except String Note
  | [], _ => Except.error "note not found"
  | n :: rest, id => if n.ID = id then Except.ok n else findNote rest id

/-- Method `NotesManager.GetNoteByID` from `manager.go`. -/
def NotesManager.GetNoteByID (m : NotesManager) (id : String) :
    Except String Note :=
  findNote m.Notes id

/-- Pointer-directed field write `note.UpdatedAt = time.Now()` for a note
obtained from the collection: updates the first note with the given id. -/
def setUpdatedAt : List Note → String → Nat → List Note
  | [], _, _ => []
  | n :: rest, id, now =>
    if n.ID = id then { n with UpdatedAt := now } :: rest
    else n :: setUpdatedAt rest id now

/-- Method `NotesManager.UpdateNote` from `manager.go`: sets the note's `UpdatedAt`
to now and calls `m.SaveNotes()`.  The Go method has no return value: the
error returned by `SaveNotes` is discarded, which is why the result type has
no error component. -/
def NotesManager.UpdateNote (m : NotesManager) (id : String) (now : Nat)
    (fs : FS) : NotesManager × FS :=
  let m1 : NotesManager := { Notes := setUpdatedAt m.Notes id now }
  let r := m1.SaveNotes fs
  (r.1, r.2.1)

/-- The loop of `DeleteNote`: the in-place splice
`append(m.Notes[:i], m.Notes[i+1:]...)` at the first index whose note has
the given id; `none` when no note matches. -/
def removeFirstNote : List Note → String → Option (List Note)
  | [], _ => none
  | n :: rest, id =>
    if n.ID = id then some rest
    else (removeFirstNote rest id).map (fun l => n :: l)

/-- Method `NotesManager.DeleteNote` from `manager.go`: on the first id match the
note is spliced out and `SaveNotes`'s result is returned; otherwise the
"note not found" error. -/
def NotesManager.DeleteNote (m : NotesManager) (id : String) (fs : FS) :
    NotesManager × FS × Option String :=
  match removeFirstNote m.Notes id with
  | some notes2 => NotesManager.SaveNotes { Notes := notes2 } fs
  | none => (m, fs, some "note not found")

/-- Model of `strings.ToLower`, modelled character-wise (the ASCII fragment of Go's
Unicode lowering). -/
def goToLower (s : String) : String := ⟨s.data.map Char.toLower⟩

/-- Model of `strings.Contains s sub`: `sub` is a contiguous substring of `s`. -/
def strContains (s sub : String) : Bool := decide (sub.data <:+: s.data)

/-- Method `NotesManager.SearchNotes` from `manager.go`: the empty query returns
the collection itself; otherwise the query is lowered once and the loop
keeps the notes whose lowered title or lowered content contains it. -/
def NotesManager.SearchNotes (m : NotesManager) (query : String) :
    List Note :=
  if query = "" then m.Notes
  else
    let q := goToLower query
    m.Notes.filter (fun note =>
      strContains (goToLower note.Title) q ||
      strContains (goToLower note.Content) q)

/-- Method `NotesManager.FilterByTags` from `manager.go`: an empty tag list returns
the collection itself; otherwise the nested loops keep a note exactly when
some tag of the note equals some tag of the filter list. -/
def NotesManager.FilterByTags (m : NotesManager) (tags : List String) :
    List Note :=
  if tags.isEmpty then m.Notes
  else
    m.Notes.filter (fun note =>
      note.Tags.any (fun noteTag => tags.contains noteTag))

/-- Fallibility of the OS calls made by `ImportImage`, in the order the Go
code makes them: `os.Open(sourcePath)`, `os.Create(destPath)`,
`os.ReadFile(sourcePath)`, `destination.Write(data)`. -/
structure ImportEnv where
  openOk : Bool
  createOk : Bool
  readOk : Bool
  writeOk : Bool
deriving DecidableEq

/-- Pointer-directed `note.AddImage ...` for the note returned by
`GetNoteByID`: applies `AddImage` to the first note with the given id. -/
def addImageFirst : List Note → String → String → String → String → Nat → List Note
  | [], _, _, _, _, _ => []
  | n :: rest, id, p, c, a, now =>
    if n.ID = id then n.AddImage p c a now :: rest
    else n :: addImageFirst rest id p c a now

/-- Method `NotesManager.ImportImage` from `manager.go`: resolve the note, then
open the source, create the destination, re-read the source and write the
copy, returning at the first failing step; only after all of these succeed
is `note.AddImage(newFilename, caption, altText)` called followed by
`m.UpdateNote(note)` (whose swallowed save error makes the final result
`none`).  `newFilename` (`generateID() + ext(sourcePath)`) is clock-driven
and passed in; `nowAdd`/`nowUpd` are the two `time.Now()` instants of
`AddImage` and `UpdateNote`. -/
def NotesManager.ImportImage (m : NotesManager)
    (noteID sourcePath caption altText : String) (env : ImportEnv)
    (newFilename : String) (nowAdd nowUpd : Nat) (fs : FS) :
    NotesManager × FS × Option String :=
  match m.GetNoteByID noteID with
  | Except.error e => (m, fs, some e)
  | Except.ok _ =>
    if env.openOk = false then
      (m, fs, some ("unable to open source image: " ++ sourcePath))
    else if env.createOk = false then
      (m, fs, some "unable to create destination file")
    else if env.readOk = false then
      (m, fs, some "unable to read source image")
    else if env.writeOk = false then
      (m, fs, some "unable to write image")
    else
      let m1 : NotesManager :=
        { Notes := addImageFirst m.Notes noteID newFilename caption altText nowAdd }
      let r := m1.UpdateNote noteID nowUpd fs
      (r.1, r.2, none)

/-- Method `NotesManager.CreateNote` from `manager.go`: builds a `NewNote` and
appends it to the collection (no persistence by itself). -/
def NotesManager.CreateNote (m : NotesManager) (title : String) (now : Nat)
    (genId : String) : NotesManager × Note :=
  let note := NewNote title now genId
  ({ Notes := m.Notes ++ [note] }, note)

/-- Spec-side predicate for search: the note's title or content contains the
query as a case-insensitive substring. -/
def specMatchesQuery (query : String) (n : Note) : Bool :=
  strContains (goToLower n.Title) (goToLower query) ||
  strContains (goToLower n.Content) (goToLower query)

/-- Spec-side predicate for tag filtering: the note has at least one tag in
the given set. -/
def specHasAnyTag (tags : List String) (n : Note) : Prop :=
  ∃ t, t ∈ n.Tags ∧ t ∈ tags

instance (tags : List String) (n : Note) : Decidable (specHasAnyTag tags n) :=
  List.decidableBEx _ n.Tags

/-- The timestamp invariant of the spec: `updated_at >= created_at`. -/
abbrev timeInv (n : Note) : Prop := n.CreatedAt ≤ n.UpdatedAt

/-- Concrete note used in witnesses. -/
def noteA : Note :=
  { ID := "a", Title := "Grocery List", Content := "milk and eggs",
    Images := [], CreatedAt := 0, UpdatedAt := 3, Tags := ["home"] }

/-- Concrete note used in witnesses. -/
def noteB : Note :=
  { ID := "b", Title := "Work", Content := "tasks", Images := [],
    CreatedAt := 1, UpdatedAt := 5, Tags := ["job", "x"] }

/-- Concrete two-note collection used in witnesses. -/
def mgrAB : NotesManager := { Notes := [noteA, noteB] }

/-- A note that already violates the tag-uniqueness invariant (such notes
are reachable: `LoadNotes` deserializes `notes.json` verbatim, with no
re-validation of tag uniqueness). -/
def dupTagNote : Note :=
  { ID := "d", Title := "", Content := "", Images := [], CreatedAt := 0,
    UpdatedAt := 0, Tags := ["x", "x"] }

/-- First of two notes sharing an id, used in the `GetNoteByID` witness. -/
def dupIdNote1 : Note :=
  { ID := "dup", Title := "first", Content := "", Images := [],
    CreatedAt := 0, UpdatedAt := 0, Tags := [] }

/-- Second of two notes sharing an id, used in the `GetNoteByID` witness. -/
def dupIdNote2 : Note :=
  { ID := "dup", Title := "second", Content := "", Images := [],
    CreatedAt := 0, UpdatedAt := 1, Tags := [] }

/-- Collection with a duplicated id, used in the `GetNoteByID` witness. -/
def mgrDup : NotesManager := { Notes := [dupIdNote1, dupIdNote2] }

/-- A file system with no `notes.json` yet and working writes. -/
def fsOK : FS := { file := none, writeFails := false }

/-- A file system whose next write fails. -/
def fsBad : FS := { file := some [], writeFails := true }

/-- All OS calls of `ImportImage` succeed. -/
def envOK : ImportEnv :=
  { openOk := true, createOk := true, readOk := true, writeOk := true }

/-- Environment where `os.Open` on the source path fails (unreadable source). -/
def envBadOpen : ImportEnv :=
  { openOk := false, createOk := true, readOk := true, writeOk := true }

/-! Helper lemmas (shared by several claim proofs). -/

theorem findNote_eq_error {ns : List Note} {id e : String}
    (h : findNote ns id = Except.error e) :
    e = "note not found" ∧ ∀ n ∈ ns, n.ID ≠ id := by
  induction ns with
  | nil =>
    simp only [findNote, Except.error.injEq] at h
    exact ⟨h.symm, by simp⟩
  | cons n rest ih =>
    simp only [findNote] at h
    by_cases hid : n.ID = id
    · rw [if_pos hid] at h
      exact absurd h (by simp)
    · rw [if_neg hid] at h
      obtain ⟨he, hall⟩ := ih h
      refine ⟨he, ?_⟩
      intro k hk
      rcases List.mem_cons.mp hk with rfl | hk2
      · exact hid
      · exact hall k hk2

theorem findNote_eq_ok {ns : List Note} {id : String} {n : Note}
    (h : findNote ns id = Except.ok n) :
    n.ID = id ∧ ∃ pre post, ns = pre ++ n :: post ∧ ∀ k ∈ pre, k.ID ≠ id := by
  induction ns with
  | nil => exact absurd h (by simp [findNote])
  | cons k rest ih =>
    simp only [findNote] at h
    by_cases hid : k.ID = id
    · rw [if_pos hid] at h
      obtain rfl : k = n := by simpa using h
      exact ⟨hid, [], rest, rfl, by simp⟩
    · rw [if_neg hid] at h
      obtain ⟨hn, pre, post, hsplit, hpre⟩ := ih h
      refine ⟨hn, k :: pre, post, by simp [hsplit], ?_⟩
      intro x hx
      rcases List.mem_cons.mp hx with rfl | hx2
      · exact hid
      · exact hpre x hx2

theorem findNote_ok_iff {ns : List Note} {id : String} :
    (∃ n, findNote ns id = Except.ok n) ↔ ∃ n ∈ ns, n.ID = id := by
  constructor
  · rintro ⟨n, h⟩
    obtain ⟨hid, pre, post, hsplit, _⟩ := findNote_eq_ok h
    exact ⟨n, by rw [hsplit]; exact List.mem_append_right _ (List.mem_cons_self _ _), hid⟩
  · intro hex
    induction ns with
    | nil => simp at hex
    | cons k rest ih =>
      by_cases hid : k.ID = id
      · exact ⟨k, by simp [findNote, hid]⟩
      · obtain ⟨n, hn, hnid⟩ := hex
        rcases List.mem_cons.mp hn with rfl | hn2
        · exact absurd hnid hid
        · obtain ⟨n2, h2⟩ := ih ⟨n, hn2, hnid⟩
          exact ⟨n2, by simp [findNote, hid, h2]⟩

theorem removeFirstNote_eq_none {ns : List Note} {id : String}
    (h : removeFirstNote ns id = none) : ∀ n ∈ ns, n.ID ≠ id := by
  induction ns with
  | nil => simp
  | cons k rest ih =>
    simp only [removeFirstNote] at h
    by_cases hid : k.ID = id
    · rw [if_pos hid] at h
      exact absurd h (by simp)
    · rw [if_neg hid] at h
      intro n hn
      rcases List.mem_cons.mp hn with rfl | hn2
      · exact hid
      · exact ih (by simpa using h) n hn2

theorem removeFirstNote_eq_some {ns l : List Note} {id : String}
    (h : removeFirstNote ns id = some l) :
    ∃ pre nd post, ns = pre ++ nd :: post ∧ nd.ID = id ∧
      (∀ k ∈ pre, k.ID ≠ id) ∧ l = pre ++ post := by
  induction ns generalizing l with
  | nil => exact absurd h (by simp [removeFirstNote])
  | cons k rest ih =>
    simp only [removeFirstNote] at h
    by_cases hid : k.ID = id
    · rw [if_pos hid] at h
      have hl : l = rest := by simpa using h.symm
      exact ⟨[], k, rest, rfl, hid, by simp, by simp [hl]⟩
    · rw [if_neg hid] at h
      rcases hmap : removeFirstNote rest id with _ | l2
      · rw [hmap] at h; exact absurd h (by simp)
      · rw [hmap] at h
        have hl : l = k :: l2 := by simpa using h.symm
        obtain ⟨pre, nd, post, hsplit, hnd, hpre, hl2⟩ := ih hmap
        refine ⟨k :: pre, nd, post, by simp [hsplit], hnd, ?_, by simp [hl, hl2]⟩
        intro x hx
        rcases List.mem_cons.mp hx with rfl | hx2
        · exact hid
        · exact hpre x hx2

theorem removeFirstNote_isSome {ns : List Note} {id : String}
    (h : ∃ n ∈ ns, n.ID = id) : ∃ l, removeFirstNote ns id = some l := by
  induction ns with
  | nil => simp at h
  | cons k rest ih =>
    by_cases hid : k.ID = id
    · exact ⟨rest, by simp [removeFirstNote, hid]⟩
    · obtain ⟨n, hn, hnid⟩ := h
      rcases List.mem_cons.mp hn with rfl | hn2
      · exact absurd hnid hid
      · obtain ⟨l, hl⟩ := ih ⟨n, hn2, hnid⟩
        exact ⟨k :: l, by simp [removeFirstNote, hid, hl]⟩

theorem mem_setUpdatedAt {ns : List Note} {id : String} {now : Nat} {k : Note}
    (hk : k ∈ setUpdatedAt ns id now) :
    k ∈ ns ∨ ∃ n0, n0 ∈ ns ∧ k = { n0 with UpdatedAt := now } := by
  induction ns with
  | nil => simp [setUpdatedAt] at hk
  | cons n rest ih =>
    simp only [setUpdatedAt] at hk
    by_cases h : n.ID = id
    · rw [if_pos h] at hk
      rcases List.mem_cons.mp hk with rfl | hk2
      · exact Or.inr ⟨n, List.mem_cons_self _ _, rfl⟩
      · exact Or.inl (List.mem_cons_of_mem _ hk2)
    · rw [if_neg h] at hk
      rcases List.mem_cons.mp hk with rfl | hk2
      · exact Or.inl (List.mem_cons_self _ _)
      · rcases ih hk2 with h1 | ⟨n0, hn0, rfl⟩
        · exact Or.inl (List.mem_cons_of_mem _ h1)
        · exact Or.inr ⟨n0, List.mem_cons_of_mem _ hn0, rfl⟩

theorem SaveNotes_fst (m : NotesManager) (fs : FS) :
    (m.SaveNotes fs).1 = { Notes := sortNotes m.Notes } := by
  unfold NotesManager.SaveNotes
  split <;> rfl

theorem strContains_empty (s : String) : strContains s "" = true :=
  decide_eq_true List.nil_infix

theorem goToLower_empty : goToLower "" = "" := rfl

/-! Claim theorems. -/

/-- Claim C10: for every collection and id, `GetNoteByID id` returns a note
exactly when some note in the collection has that id, and returns the
"note not found" error otherwise; when several notes share the id it returns
the earliest such note in collection order (the note returned is preceded
only by notes whose id differs).  `GetNoteByID` is a pure query: it takes
the manager and returns only the `Except` value, so the collection is
unchanged. -/
theorem GetNoteByID_spec (m : NotesManager) (id : String) :
    ((∃ n, m.GetNoteByID id = Except.ok n) ↔ ∃ n ∈ m.Notes, n.ID = id) ∧
    ((¬ ∃ n ∈ m.Notes, n.ID = id) →
      m.GetNoteByID id = Except.error "note not found") ∧
    (∀ n, m.GetNoteByID id = Except.ok n →
      n.ID = id ∧ ∃ pre post, m.Notes = pre ++ n :: post ∧
        ∀ k ∈ pre, k.ID ≠ id) := by
  refine ⟨findNote_ok_iff, ?_, ?_⟩
  · intro hno
    cases hf : findNote m.Notes id with
    | error e =>
      have he := (findNote_eq_error hf).1
      show findNote m.Notes id = Except.error "note not found"
      rw [hf, he]
    | ok n => exact absurd (findNote_ok_iff.mp ⟨n, hf⟩) hno
  · intro n h
    exact findNote_eq_ok h

/-- Claim C10 witness: on a collection with two notes sharing id "dup",
`GetNoteByID` returns the earlier one. -/
theorem GetNoteByID_spec_witness :
    dupIdNote1.ID = "dup" ∧ mgrDup.GetNoteByID "dup" = Except.ok dupIdNote1 :=
  ⟨((GetNoteByID_spec mgrDup "dup").2.2 dupIdNote1 rfl).1, rfl⟩

/-- Claim C5: `SearchNotes query` returns exactly the notes whose title or
content contains the query as a case-insensitive substring, in collection
order (it equals `filter` of the spec predicate over the stored collection,
hence is a sublist of it); the empty query returns the full collection in
unchanged order.  `SearchNotes` takes the manager and returns only the
result sequence, so the stored collection and its order are not mutated. -/
theorem SearchNotes_spec (m : NotesManager) (q : String) :
    m.SearchNotes "" = m.Notes ∧
    m.SearchNotes q = m.Notes.filter (specMatchesQuery q) ∧
    (m.SearchNotes q).Sublist m.Notes ∧
    (∀ n, n ∈ m.SearchNotes q ↔ n ∈ m.Notes ∧ specMatchesQuery q n = true) := by
  have hfilter : ∀ q', m.SearchNotes q' = m.Notes.filter (specMatchesQuery q') := by
    intro q'
    by_cases hq : q' = ""
    · subst hq
      simp only [NotesManager.SearchNotes, if_pos rfl]
      symm
      refine List.filter_eq_self.mpr ?_
      intro n _
      simp [specMatchesQuery, goToLower_empty, strContains_empty]
    · simp only [NotesManager.SearchNotes, if_neg hq]
      rfl
  refine ⟨?_, hfilter q, ?_, ?_⟩
  · rw [hfilter ""]
    refine List.filter_eq_self.mpr ?_
    intro n _
    simp [specMatchesQuery, goToLower_empty, strContains_empty]
  · rw [hfilter q]
    exact List.filter_sublist _
  · intro n
    rw [hfilter q]
    exact List.mem_filter

/-- Claim C5 witness: the empty query returns the whole collection, and a
query in the wrong case still finds "Grocery List". -/
theorem SearchNotes_spec_witness :
    mgrAB.SearchNotes "" = mgrAB.Notes ∧
    mgrAB.SearchNotes "GROCERY" = [noteA] :=
  ⟨(SearchNotes_spec mgrAB "").1, by decide⟩

/-- Claim C7: `FilterByTags []` returns the full collection; a non-empty tag
list returns exactly the notes having at least one tag in the given set
(logical OR), as a filter of the stored collection, hence in the original
relative order (a sublist of the collection). -/
theorem FilterByTags_spec (m : NotesManager) (tags : List String) :
    m.FilterByTags [] = m.Notes ∧
    (tags ≠ [] →
      m.FilterByTags tags =
        m.Notes.filter (fun n => decide (specHasAnyTag tags n))) ∧
    (m.FilterByTags tags).Sublist m.Notes ∧
    (tags ≠ [] →
      ∀ n, n ∈ m.FilterByTags tags ↔ n ∈ m.Notes ∧ specHasAnyTag tags n) := by
  have hpred : ∀ n : Note,
      (n.Tags.any fun noteTag => tags.contains noteTag) =
        decide (specHasAnyTag tags n) := by
    intro n
    by_cases h : specHasAnyTag tags n
    · rw [decide_eq_true h]
      rcases h with ⟨t, ht, htags⟩
      exact List.any_eq_true.mpr ⟨t, ht, by simpa using htags⟩
    · rw [decide_eq_false h]
      refine Bool.eq_false_iff.mpr ?_
      intro hb
      rcases List.any_eq_true.mp hb with ⟨t, ht, hc⟩
      exact h ⟨t, ht, by simpa using hc⟩
  have hmain : tags ≠ [] →
      m.FilterByTags tags =
        m.Notes.filter (fun n => decide (specHasAnyTag tags n)) := by
    intro ht
    have hne : tags.isEmpty = false := by
      cases tags with
      | nil => exact absurd rfl ht
      | cons a l => rfl
    simp only [NotesManager.FilterByTags, hne, Bool.false_eq_true, if_false]
    exact List.filter_congr (fun x _ => hpred x)
  refine ⟨by simp [NotesManager.FilterByTags], hmain, ?_, ?_⟩
  · by_cases ht : tags = []
    · subst ht
      simp [NotesManager.FilterByTags]
    · rw [hmain ht]
      exact List.filter_sublist _
  · intro ht n
    rw [hmain ht]
    simp [List.mem_filter]

/-- Claim C7 witness: the empty tag list returns the whole collection, and
filtering on tag "x" returns exactly the note carrying it. -/
theorem FilterByTags_spec_witness :
    mgrAB.FilterByTags [] = mgrAB.Notes ∧
    mgrAB.FilterByTags ["x"] = [noteB] :=
  ⟨(FilterByTags_spec mgrAB []).1, by decide⟩

/-- Claim C6 counterexample: on a note whose tags already hold "x" twice
(reachable, since `LoadNotes` deserializes `notes.json` verbatim with no
re-validation of tag uniqueness), calling `AddTag "x"` twice leaves two
occurrences, not exactly one. -/
theorem AddTag_twice_counterexample :
    ((dupTagNote.AddTag "x" 1).AddTag "x" 2).Tags.count "x" = 2 ∧
    ¬ ((dupTagNote.AddTag "x" 1).AddTag "x" 2).Tags.count "x" = 1 := by
  decide

/-- Claim C6 (amended): for every note N whose tags contain t at most once
(which the tag-uniqueness invariant guarantees for any note built through
the API), calling `AddTag t` twice leaves exactly one occurrence of t;
unconditionally — including on reachable duplicate-tag notes — `AddTag` is
a no-op (no error, `updated_at` untouched) on an already-present tag and
otherwise appends the tag and advances `updated_at` to now. -/
theorem AddTag_spec (n : Note) (t : String) (now1 now2 : Nat) :
    (n.Tags.count t ≤ 1 →
      ((n.AddTag t now1).AddTag t now2).Tags.count t = 1) ∧
    (t ∈ n.Tags → n.AddTag t now1 = n) ∧
    (t ∉ n.Tags →
      (n.AddTag t now1).Tags = n.Tags ++ [t] ∧
      (n.AddTag t now1).UpdatedAt = now1) := by
  refine ⟨?_, ?_, ?_⟩
  · intro hdup
    by_cases h : t ∈ n.Tags
    · have hone : n.Tags.count t = 1 :=
        Nat.le_antisymm hdup (List.count_pos_iff.mpr h)
      simp [Note.AddTag, h, hone]
    · have h0 : n.Tags.count t = 0 := List.count_eq_zero.mpr h
      have h1 : (n.AddTag t now1) = { n with Tags := n.Tags ++ [t], UpdatedAt := now1 } := by
        simp [Note.AddTag, h]
      have h2 : t ∈ n.Tags ++ [t] :=
        List.mem_append_right _ (List.mem_cons_self _ _)
      rw [h1]
      simp [Note.AddTag, h2, List.count_append, h0]
  · intro h
    simp [Note.AddTag, h]
  · intro h
    simp [Note.AddTag, h]

/-- Claim C6 witness: on a note satisfying the uniqueness invariant, adding
the already-present tag "home" twice leaves exactly one occurrence; and the
unconditional no-op conjunct holds even on the duplicate-tag note. -/
theorem AddTag_spec_witness :
    noteA.Tags.count "home" ≤ 1 ∧
    ((noteA.AddTag "home" 7).AddTag "home" 8).Tags.count "home" = 1 ∧
    dupTagNote.AddTag "x" 5 = dupTagNote :=
  ⟨by decide, (AddTag_spec noteA "home" 7 8).1 (by decide),
   (AddTag_spec dupTagNote "x" 5 6).2.1 (by decide)⟩

/-- Claim C8: `updated_at >= created_at` holds at creation
(`NewNote` sets both to now) and is preserved by `AddTag`, `RemoveTag`,
`AddImage` and `UpdateNote`, each of which either leaves `updated_at`
unchanged or advances it to the current instant, assuming the clock does not
go backwards (`UpdatedAt <= now` beforehand). -/
theorem timestamps_spec (title gid tg p c a id : String) (n : Note)
    (now : Nat) (m : NotesManager) (fs : FS)
    (hn : timeInv n) (hc : n.UpdatedAt ≤ now)
    (hm : ∀ k ∈ m.Notes, timeInv k) (hmc : ∀ k ∈ m.Notes, k.UpdatedAt ≤ now) :
    ((NewNote title now gid).CreatedAt = now ∧
      (NewNote title now gid).UpdatedAt = now ∧
      timeInv (NewNote title now gid)) ∧
    (timeInv (n.AddTag tg now) ∧ n.UpdatedAt ≤ (n.AddTag tg now).UpdatedAt ∧
      ((n.AddTag tg now).UpdatedAt = n.UpdatedAt ∨
        (n.AddTag tg now).UpdatedAt = now)) ∧
    (timeInv (n.RemoveTag tg now) ∧
      n.UpdatedAt ≤ (n.RemoveTag tg now).UpdatedAt ∧
      ((n.RemoveTag tg now).UpdatedAt = n.UpdatedAt ∨
        (n.RemoveTag tg now).UpdatedAt = now)) ∧
    (timeInv (n.AddImage p c a now) ∧
      (n.AddImage p c a now).UpdatedAt = now ∧
      n.UpdatedAt ≤ (n.AddImage p c a now).UpdatedAt) ∧
    (∀ k ∈ (m.UpdateNote id now fs).1.Notes, timeInv k ∧ k.UpdatedAt ≤ now) := by
  have hcn : n.CreatedAt ≤ now := Nat.le_trans hn hc
  refine ⟨⟨rfl, rfl, Nat.le_refl now⟩, ?_, ?_, ⟨hcn, rfl, hc⟩, ?_⟩
  · by_cases h : tg ∈ n.Tags
    · simp [Note.AddTag, h, hn]
    · simp [Note.AddTag, h, hcn, hc]
  · cases hr : removeFirstTag n.Tags tg with
    | none => simp [Note.RemoveTag, hr, hn]
    | some ts => simp [Note.RemoveTag, hr, hcn, hc]
  · intro k hk
    have h1 : (m.UpdateNote id now fs).1.Notes
        = sortNotes (setUpdatedAt m.Notes id now) := by
      show ((NotesManager.SaveNotes _ fs).1).Notes = _
      rw [SaveNotes_fst]
    rw [h1] at hk
    have hk2 : k ∈ setUpdatedAt m.Notes id now :=
      (List.perm_insertionSort noteLE _).mem_iff.mp hk
    rcases mem_setUpdatedAt hk2 with hmem | ⟨n0, hn0, rfl⟩
    · exact ⟨hm k hmem, hmc k hmem⟩
    · exact ⟨Nat.le_trans (hm n0 hn0) (hmc n0 hn0), Nat.le_refl now⟩

/-- Claim C8 witness: a fresh note has equal timestamps, and tagging a note
of the concrete collection preserves the invariant. -/
theorem timestamps_spec_witness :
    (NewNote "T" 9 "id9").CreatedAt = 9 ∧ timeInv (noteA.AddTag "new" 9) :=
  ⟨(timestamps_spec "T" "id9" "new" "p" "c" "al" "a" noteA 9 mgrAB fsOK
      (by decide) (by decide) (by decide) (by decide)).1.1,
   (timestamps_spec "T" "id9" "new" "p" "c" "al" "a" noteA 9 mgrAB fsOK
      (by decide) (by decide) (by decide) (by decide)).2.1.1⟩

/-- Claim C2: when the write succeeds, saving a collection and then loading
it yields exactly the saved sort of the original notes: a permutation of the
originals (each loaded note equal field-for-field to an original) whose only
difference is the re-ordering by `updated_at` descending. -/
theorem SaveNotes_LoadNotes_roundtrip (m m0 : NotesManager) (fs : FS)
    (h : fs.writeFails = false) :
    (m.SaveNotes fs).2.2 = none ∧
    (m0.LoadNotes (m.SaveNotes fs).2.1).2 = none ∧
    (m0.LoadNotes (m.SaveNotes fs).2.1).1.Notes = sortNotes m.Notes ∧
    (sortNotes m.Notes).Perm m.Notes ∧
    (sortNotes m.Notes).Pairwise noteLE := by
  have hred : m.SaveNotes fs =
      ({ Notes := sortNotes m.Notes },
        { fs with file := some (sortNotes m.Notes) }, none) := by
    unfold NotesManager.SaveNotes
    rw [h]
    rfl
  rw [hred]
  exact ⟨rfl, rfl, rfl, List.perm_insertionSort _ _,
    List.sorted_insertionSort _ _⟩

/-- Claim C2 witness: the two-note collection round-trips into its
`updated_at`-descending re-ordering. -/
theorem SaveNotes_LoadNotes_roundtrip_witness :
    fsOK.writeFails = false ∧
    (NotesManager.LoadNotes { Notes := [] } (mgrAB.SaveNotes fsOK).2.1).1.Notes
      = sortNotes mgrAB.Notes ∧
    sortNotes mgrAB.Notes = [noteB, noteA] :=
  ⟨rfl,
   (SaveNotes_LoadNotes_roundtrip mgrAB { Notes := [] } fsOK rfl).2.2.1,
   by decide⟩

/-- Claim C1 (code bug): `UpdateNote` does not surface save failures.  The
Go method has no return value and discards the error of the `m.SaveNotes()`
call, so its model returns only the new state and file system.  At a
concrete input whose write fails, the inner `SaveNotes` reports
"error writing notes file", yet `UpdateNote` returns the pair (with the
in-memory collection correctly updated and sorted, and the persisted file
lagging behind) with no error for the caller. -/
theorem UpdateNote_discards_save_error :
    (NotesManager.SaveNotes { Notes := setUpdatedAt mgrAB.Notes "a" 7 } fsBad).2.2
      = some "error writing notes file" ∧
    mgrAB.UpdateNote "a" 7 fsBad
      = ({ Notes := [{ noteA with UpdatedAt := 7 }, noteB] }, fsBad) := by
  decide

/-- Claim C4: `DeleteNote id` on a non-existent id returns the not-found
error and leaves both the in-memory collection and the persisted file
unchanged; on a match it removes the first note with that id — an
order-preserving removal (the remaining collection is the concatenation of
the notes before and after it, in order) — and then persists via
`SaveNotes` (whose error propagates; on a successful write the file holds
the saved `updated_at`-descending sort of the remainder and no error is
returned). -/
theorem DeleteNote_spec (m : NotesManager) (id : String) (fs : FS) :
    ((¬ ∃ n ∈ m.Notes, n.ID = id) →
      m.DeleteNote id fs = (m, fs, some "note not found")) ∧
    ((∃ n ∈ m.Notes, n.ID = id) →
      ∃ pre nd post, m.Notes = pre ++ nd :: post ∧ nd.ID = id ∧
        (∀ k ∈ pre, k.ID ≠ id) ∧
        m.DeleteNote id fs = NotesManager.SaveNotes { Notes := pre ++ post } fs ∧
        (fs.writeFails = false →
          (m.DeleteNote id fs).2.2 = none ∧
          (m.DeleteNote id fs).2.1.file = some (sortNotes (pre ++ post)))) := by
  cases hr : removeFirstNote m.Notes id with
  | none =>
    constructor
    · intro _
      unfold NotesManager.DeleteNote
      rw [hr]
    · intro hex
      obtain ⟨l, hl⟩ := removeFirstNote_isSome hex
      rw [hr] at hl
      exact absurd hl (by simp)
  | some l =>
    obtain ⟨pre, nd, post, hsplit, hnd, hpre, hl⟩ := removeFirstNote_eq_some hr
    have hdel : m.DeleteNote id fs
        = NotesManager.SaveNotes { Notes := pre ++ post } fs := by
      unfold NotesManager.DeleteNote
      rw [hr, hl]
    constructor
    · intro hno
      refine absurd ⟨nd, ?_, hnd⟩ hno
      rw [hsplit]
      exact List.mem_append_right _ (List.mem_cons_self _ _)
    · intro _
      refine ⟨pre, nd, post, hsplit, hnd, hpre, hdel, ?_⟩
      intro hw
      have hs : NotesManager.SaveNotes { Notes := pre ++ post } fs
          = ({ Notes := sortNotes (pre ++ post) },
             { fs with file := some (sortNotes (pre ++ post)) }, none) := by
        unfold NotesManager.SaveNotes
        rw [hw]
        rfl
      rw [hdel, hs]
      exact ⟨rfl, rfl⟩

/-- Claim C4 witness: deleting an unknown id returns the not-found error
with state and file untouched; deleting id "a" removes exactly that note and
persists the remainder. -/
theorem DeleteNote_spec_witness :
    mgrAB.DeleteNote "zzz" fsOK = (mgrAB, fsOK, some "note not found") ∧
    mgrAB.DeleteNote "a" fsOK
      = ({ Notes := [noteB] },
         { file := some [noteB], writeFails := false }, none) :=
  ⟨(DeleteNote_spec mgrAB "zzz" fsOK).1 (by decide), by decide⟩

/-- Claim C3: `ImportImage` returns an error exactly when the note id does
not resolve, the source cannot be opened or read, or the destination cannot
be created or written; and whenever it returns an error, the collection (in
particular the target note's image sequence and its length) and the
persisted file are unchanged. -/
theorem ImportImage_spec (m : NotesManager)
    (noteID sp cap alt : String) (env : ImportEnv) (fn : String)
    (nowA nowU : Nat) (fs : FS) :
    ((m.ImportImage noteID sp cap alt env fn nowA nowU fs).2.2.isSome = true ↔
      ((¬ ∃ n ∈ m.Notes, n.ID = noteID) ∨ env.openOk = false ∨
        env.createOk = false ∨ env.readOk = false ∨ env.writeOk = false)) ∧
    ((m.ImportImage noteID sp cap alt env fn nowA nowU fs).2.2.isSome = true →
      (m.ImportImage noteID sp cap alt env fn nowA nowU fs).1 = m ∧
      (m.ImportImage noteID sp cap alt env fn nowA nowU fs).2.1 = fs) := by
  cases hf : findNote m.Notes noteID with
  | error e =>
    have hne := findNote_eq_error hf
    have hnotex : ¬ ∃ n ∈ m.Notes, n.ID = noteID := by
      rintro ⟨n, hn, hid⟩
      exact hne.2 n hn hid
    have hred : m.ImportImage noteID sp cap alt env fn nowA nowU fs
        = (m, fs, some e) := by
      unfold NotesManager.ImportImage NotesManager.GetNoteByID
      rw [hf]
    rw [hred]
    exact ⟨by simp [hnotex], fun _ => ⟨rfl, rfl⟩⟩
  | ok nd =>
    obtain ⟨hid, pre, post, hsplit, _⟩ := findNote_eq_ok hf
    have hex : ∃ n ∈ m.Notes, n.ID = noteID := by
      refine ⟨nd, ?_, hid⟩
      rw [hsplit]
      exact List.mem_append_right _ (List.mem_cons_self _ _)
    cases ho : env.openOk with
    | false =>
      have hred : m.ImportImage noteID sp cap alt env fn nowA nowU fs
          = (m, fs, some ("unable to open source image: " ++ sp)) := by
        unfold NotesManager.ImportImage NotesManager.GetNoteByID
        rw [hf, ho]
        rfl
      rw [hred]
      exact ⟨by simp, fun _ => ⟨rfl, rfl⟩⟩
    | true =>
      cases hc : env.createOk with
      | false =>
        have hred : m.ImportImage noteID sp cap alt env fn nowA nowU fs
            = (m, fs, some "unable to create destination file") := by
          unfold NotesManager.ImportImage NotesManager.GetNoteByID
          rw [hf, ho, hc]
          rfl
        rw [hred]
        exact ⟨by simp, fun _ => ⟨rfl, rfl⟩⟩
      | true =>
        cases hrd : env.readOk with
        | false =>
          have hred : m.ImportImage noteID sp cap alt env fn nowA nowU fs
              = (m, fs, some "unable to read source image") := by
            unfold NotesManager.ImportImage NotesManager.GetNoteByID
            rw [hf, ho, hc, hrd]
            rfl
          rw [hred]
          exact ⟨by simp, fun _ => ⟨rfl, rfl⟩⟩
        | true =>
          cases hw : env.writeOk with
          | false =>
            have hred : m.ImportImage noteID sp cap alt env fn nowA nowU fs
                = (m, fs, some "unable to write image") := by
              unfold NotesManager.ImportImage NotesManager.GetNoteByID
              rw [hf, ho, hc, hrd, hw]
              rfl
            rw [hred]
            exact ⟨by simp, fun _ => ⟨rfl, rfl⟩⟩
          | true =>
            have hred :
                (m.ImportImage noteID sp cap alt env fn nowA nowU fs).2.2
                  = none := by
              unfold NotesManager.ImportImage NotesManager.GetNoteByID
              rw [hf, ho, hc, hrd, hw]
              rfl
            constructor
            · rw [hred]
              constructor
              · intro habs
                exact absurd habs (by simp)
              · rintro (h1 | h2 | h3 | h4 | h5)
                · exact absurd hex h1
                · simp [ho] at h2
                · simp [hc] at h3
                · simp [hrd] at h4
                · simp [hw] at h5
            · intro habs
              rw [hred] at habs
              exact absurd habs (by simp)

/-- Claim C3 witness: on an unreadable source (`os.Open` fails),
`ImportImage` returns an error and the collection — hence the target note's
image sequence length — is unchanged. -/
theorem ImportImage_spec_witness :
    (mgrAB.ImportImage "a" "bad.png" "cap" "alt" envBadOpen "f.png" 8 9
        fsOK).2.2.isSome = true ∧
    (mgrAB.ImportImage "a" "bad.png" "cap" "alt" envBadOpen "f.png" 8 9
        fsOK).1 = mgrAB :=
  ⟨by decide,
   ((ImportImage_spec mgrAB "a" "bad.png" "cap" "alt" envBadOpen "f.png" 8 9
      fsOK).2 (by decide)).1⟩

/-- Claim C9 counterexample: the source's only construction of an `Image`
value is inside `Note.AddImage` (model.go), and it populates neither the
identifier nor the position.  At concrete inputs, both the direct `AddImage`
mutation path and the interactive import path `ImportImage` (which calls
`AddImage`) yield an image with `ID = ""` and `Position = 0`; so no mutation
path in the source populates these fields, refuting the claim's existence of
a populating path. -/
theorem Image_fields_counterexample :
    ((noteA.AddImage "p.png" "cap" "alt" 4).Images.map
        (fun i => (i.ID, i.Position)) = [("", 0)]) ∧
    ((mgrAB.ImportImage "a" "src.png" "cap" "alt" envOK "gen.png" 8 9
        fsOK).1.Notes.map
        (fun n => n.Images.map (fun i => (i.ID, i.Position)))
      = [[("", 0)], []]) := by
  decide

/-- Claim C9 (amended): no mutation path in the source populates an added
image's identifier or position.  `AddImage` — the single image-constructing
operation, used directly and by the interactive import path `ImportImage` —
appends an image whose `ID` is the empty string and whose `Position` is
zero, populating only path, caption and alt text. -/
theorem AddImage_fields_spec (n : Note) (p c a : String) (now : Nat) :
    (n.AddImage p c a now).Images =
      n.Images
        ++ [{ ID := "", Path := p, Caption := c, AltText := a, Position := 0 }] ∧
    (n.AddImage p c a now).UpdatedAt = now :=
  ⟨rfl, rfl⟩

/-- Claim C9 witness: the amended claim evaluated on a concrete note. -/
theorem AddImage_fields_spec_witness :
    (noteA.AddImage "p.png" "c" "al" 4).Images =
      noteA.Images
        ++ [{ ID := "", Path := "p.png", Caption := "c", AltText := "al", Position := 0 }] :=
  (AddImage_fields_spec noteA "p.png" "c" "al" 4).1
